import Mathlib

/-!
A verification development for the chart-extraction core of
`createcsvs.py` (mobility-report-data-extractor).

The two functions with algorithmic content are embedded shallowly:

* `categorise_paths` — classifies SVG paths into horizontal reference
  lines and the trend line, extracts the x-axis limits and the ordered
  trend point sequence (bridging gaps between consecutive segments);
* `convert_units` — maps trend points from SVG drawing coordinates to
  (day-index, value) plot coordinates.

Coordinates (Python complex numbers) are modelled as pairs of rationals,
Python exceptions as an `Except` error channel, and Python's built-in
`round` as round-half-to-even on rationals.  The floating-point tolerance
test `np.isclose` used to detect gaps is kept abstract as a Boolean
predicate parameter `close`.
-/

namespace CreateCsvs

/-- A 2-D point in SVG drawing coordinates, modelling the complex numbers
used by svgpathtools: `re` is `.real` (x), `im` is `.imag` (y). -/
structure Cplx where
  re : ℚ
  im : ℚ
deriving DecidableEq, Repr

instance : Inhabited Cplx := ⟨⟨0, 0⟩⟩

/-- One segment of an SVG path.  `start`/`stop` model the `.start`/`.end`
attributes of an svgpathtools segment (`end` is reserved in Lean). -/
structure Segment where
  start : Cplx
  stop : Cplx
deriving DecidableEq, Repr

instance : Inhabited Segment := ⟨⟨default, default⟩⟩

/-- An SVG path is its ordered list of segments; `len(path)` is the list
length, `path[i]` the i-th segment. -/
abbrev Path := List Segment

/-- Model of `path.start`: the start point of the first segment. -/
def pathStart (p : Path) : Cplx := p.headI.start

/-- Model of `path.end`: the end point of the last segment. -/
def pathStop (p : Path) : Cplx := (p.getLastD default).stop

/-- The Python exceptions that the embedded code can raise:
`ValueError` (raised explicitly), `AssertionError` (failed `assert`),
`ZeroDivisionError` (division by zero). -/
inductive PyErr where
  | valueError : PyErr
  | assertionError : PyErr
  | zeroDivisionError : PyErr
deriving DecidableEq, Repr

/-- Python's `sorted` on a list of numbers (ascending; stability is
irrelevant for plain numeric values). -/
def pySorted (l : List ℚ) : List ℚ := List.insertionSort (· ≤ ·) l

/-- Python's `sorted(·, reverse=True)` on a list of numbers (descending). -/
def pySortedRev (l : List ℚ) : List ℚ := List.insertionSort (fun a b : ℚ => b ≤ a) l

/-- Model of `[path for path in paths if len(path) == 1]` — the
single-segment paths, in original order. -/
def single_segment (paths : List Path) : List Path :=
  paths.filter (fun p => p.length == 1)

/-- Model of `trends = [path for path in paths if len(path) > 1]` — the
candidate trend lines, in original order. -/
def trends (paths : List Path) : List Path :=
  paths.filter (fun p => decide (1 < p.length))

/-- Model of
`y_lines = sorted([path.start.imag for path in paths if len(path) == 1])`
— the reference-line y-candidates, ascending.  Note that the source takes
`path.start.imag` of every single-segment path, with no check that the
segment is horizontal. -/
def y_lines (paths : List Path) : List ℚ :=
  pySorted ((single_segment paths).map (fun p => (pathStart p).im))

/-- The gap-bridging loop of `categorise_paths`:
for each consecutive pair `(end_seg, next_start_seg)` of trend segments,
append `end_seg.end` when the shared endpoints are not close
(`np.isclose`, abstracted as `close`), then always append
`next_start_seg.start`. -/
def mid_points (close : Cplx → Cplx → Bool) : List Segment → List Cplx
  | a :: b :: rest =>
      (if close a.stop b.start then [b.start] else [a.stop, b.start])
        ++ mid_points close (b :: rest)
  | _ => []

/-- Number of gaps in a trend path: consecutive segment pairs whose shared
endpoints are not close.  (Specification-side counter, used to state the
length properties of the extracted point sequence.) -/
def gapCount (close : Cplx → Cplx → Bool) : List Segment → ℕ
  | a :: b :: rest =>
      (if close a.stop b.start then 0 else 1) + gapCount close (b :: rest)
  | _ => 0

/-- Model of `categorise_paths(paths)` from `createcsvs.py`.

Returns `(xlim, y_lines sorted descending, trend points)`, or an error:
`ValueError` when the (possibly reduced) candidate count is not 3,
`AssertionError` when the number of multi-segment paths is not 1.
The index accesses `y_lines0[0]`, `y_lines0[2]`, `y_lines0[-1]` are guarded
by the length-5 test, and the `[...][1]` access for `xlim` by the length-3
test (3 or 5 single-segment paths exist there), so the `getD` defaults are
never used. -/
def categorise_paths (close : Cplx → Cplx → Bool) (paths : List Path) :
    Except PyErr ((ℚ × ℚ) × List ℚ × List Cplx) :=
  let y_lines0 := y_lines paths
  let y_lines1 :=
    if y_lines0.length = 5 then
      [y_lines0.getD 0 0, y_lines0.getD 2 0, y_lines0.getD 4 0]
    else y_lines0
  if y_lines1.length = 3 then
    let xlim := ((single_segment paths).map
      (fun p => ((pathStart p).re, (pathStop p).re))).getD 1 (0, 0)
    if (trends paths).length = 1 then
      let trend := (trends paths).headI
      let points := pathStart trend :: (mid_points close trend ++ [pathStop trend])
      .ok (xlim, pySortedRev y_lines1, points)
    else .error .assertionError
  else .error .valueError

/-- Python's built-in `round`: round half to even (banker's rounding). -/
def pyRound (q : ℚ) : ℤ :=
  if q - ⌊q⌋ < 1 / 2 then ⌊q⌋
  else if (1 : ℚ) / 2 < q - ⌊q⌋ then ⌊q⌋ + 1
  else if ⌊q⌋ % 2 = 0 then ⌊q⌋ else ⌊q⌋ + 1

/-- The loop body of `convert_units` for one trend point.  Python raises
`ZeroDivisionError` when dividing by a zero scale (the `x_out` division by
`x_scale` is evaluated first). -/
def point_conv (xmin x_scale ymid y_scale yspan xspan : ℚ) (point : Cplx) :
    Except PyErr (ℤ × ℚ) :=
  if x_scale = 0 then .error .zeroDivisionError
  else if y_scale = 0 then .error .zeroDivisionError
  else .ok (1 + pyRound (xspan * ((point.re - xmin) / x_scale)),
            yspan * ((ymid - point.im) / y_scale))

/-- The `for point in trend` loop of `convert_units`: builds the output
list in order, aborting at the first exception. -/
def conv_loop (f : Cplx → Except PyErr (ℤ × ℚ)) :
    List Cplx → Except PyErr (List (ℤ × ℚ))
  | [] => .ok []
  | p :: rest =>
    match f p with
    | .error e => .error e
    | .ok q =>
      match conv_loop f rest with
      | .error e => .error e
      | .ok qs => .ok (q :: qs)

/-- Model of `convert_units(trend, line_y, xlim, yspan, xspan)` from
`createcsvs.py`.  The tuple unpacking `ymax, ymid, ymin = tuple(line_y)`
raises `ValueError` unless `line_y` has exactly three elements. -/
def convert_units (trend : List Cplx) (line_y : List ℚ) (xlim : ℚ × ℚ)
    (yspan xspan : ℚ) : Except PyErr (List (ℤ × ℚ)) :=
  match line_y with
  | [ymax, ymid, ymin] =>
    let xmin := xlim.1
    let xmax := xlim.2
    let x_scale := xmax - xmin
    let y_scale := (|ymax - ymid| + |ymid - ymin|) / 2
    conv_loop (point_conv xmin x_scale ymid y_scale yspan xspan) trend
  | _ => .error .valueError

/-- A concrete instantiation of the `np.isclose` tolerance predicate:
exact equality.  Adequate for concrete witnesses, where endpoint pairs
either coincide exactly or are far apart relative to any tolerance. -/
def closeEq (a b : Cplx) : Bool := decide (a = b)

/-! ### Helper lemmas -/

lemma isOk_iff {ε α : Type} (e : Except ε α) :
    e.isOk = true ↔ ∃ a, e = .ok a := by
  cases e <;> simp [Except.isOk, Except.toBool]

lemma y_lines_length (paths : List Path) :
    (y_lines paths).length = (single_segment paths).length := by
  simp [y_lines, pySorted, List.length_insertionSort]

lemma mid_points_length (close : Cplx → Cplx → Bool) :
    ∀ (rest : List Segment) (a : Segment),
      (mid_points close (a :: rest)).length = rest.length + gapCount close (a :: rest) := by
  intro rest
  induction rest with
  | nil => intro a; simp [mid_points, gapCount]
  | cons b rest ih =>
    intro a
    by_cases hc : close a.stop b.start = true <;>
      simp [mid_points, gapCount, hc, ih b] <;> omega

/-- Characterisation of a successful run of `categorise_paths`: the shape
conditions hold and each component of the result is determined. -/
lemma categorise_paths_ok (close : Cplx → Cplx → Bool) (paths : List Path)
    (xlim : ℚ × ℚ) (ylines : List ℚ) (pts : List Cplx)
    (h : categorise_paths close paths = .ok (xlim, ylines, pts)) :
    ((single_segment paths).length = 3 ∨ (single_segment paths).length = 5)
      ∧ (trends paths).length = 1
      ∧ xlim = ((single_segment paths).map
          (fun p => ((pathStart p).re, (pathStop p).re))).getD 1 (0, 0)
      ∧ ylines = pySortedRev (if (y_lines paths).length = 5 then
            [(y_lines paths).getD 0 0, (y_lines paths).getD 2 0, (y_lines paths).getD 4 0]
          else y_lines paths)
      ∧ pts = pathStart ((trends paths).headI)
          :: (mid_points close ((trends paths).headI) ++ [pathStop ((trends paths).headI)]) := by
  unfold categorise_paths at h
  simp only [] at h
  by_cases h5 : (y_lines paths).length = 5
  · simp only [h5, if_true, List.length_cons, List.length_nil] at h
    split at h
    next ht =>
      simp only [Except.ok.injEq, Prod.mk.injEq] at h
      refine ⟨Or.inr (by rw [← y_lines_length, h5]), ht, ?_, ?_, ?_⟩
      · exact h.1.symm
      · rw [if_pos h5]; exact h.2.1.symm
      · exact h.2.2.symm
    next ht => simp at h
  · simp only [h5, if_false] at h
    split at h
    next h3 =>
      split at h
      next ht =>
        simp only [Except.ok.injEq, Prod.mk.injEq] at h
        refine ⟨Or.inl (by rw [← y_lines_length, h3]), ht, ?_, ?_, ?_⟩
        · exact h.1.symm
        · rw [if_neg h5]; exact h.2.1.symm
        · exact h.2.2.symm
      next ht => simp at h
    next h3 => simp at h

/-! ### Claim C3 -/

/-- C3: `classify` fails (with a shape error) exactly when the number of
multi-segment trend paths is 0 or at least 2, or the number of
single-segment reference-line candidates is neither 3 nor 5; on every
conforming input it succeeds. -/
theorem categorise_paths_ok_iff (close : Cplx → Cplx → Bool) (paths : List Path) :
    (categorise_paths close paths).isOk = true ↔
      (((single_segment paths).length = 3 ∨ (single_segment paths).length = 5)
        ∧ (trends paths).length = 1) := by
  constructor
  · intro h
    obtain ⟨⟨xlim, ylines, pts⟩, he⟩ := (isOk_iff _).mp h
    have hc := categorise_paths_ok close paths xlim ylines pts he
    exact ⟨hc.1, hc.2.1⟩
  · rintro ⟨h35, ht⟩
    unfold categorise_paths
    simp only []
    by_cases h5 : (y_lines paths).length = 5
    · simp [h5, ht, Except.isOk, Except.toBool]
    · have h3 : (y_lines paths).length = 3 := by
        rcases h35 with h | h
        · rw [y_lines_length, h]
        · exact absurd ((y_lines_length paths).trans h) h5
      simp [h5, h3, ht, Except.isOk, Except.toBool]

/-! ### Claim C1 -/

/-- C1 (amended): for every conforming input the extracted trend point
sequence has length `(segments) + 1 + (number of gaps)` — each gap inserts
exactly one extra boundary point over the gap-free case. -/
theorem trend_points_length (close : Cplx → Cplx → Bool) (paths : List Path)
    (xlim : ℚ × ℚ) (ylines : List ℚ) (pts : List Cplx)
    (h : categorise_paths close paths = .ok (xlim, ylines, pts)) :
    pts.length = ((trends paths).headI).length + 1 + gapCount close ((trends paths).headI) := by
  obtain ⟨h35, ht, hx, hy, hp⟩ := categorise_paths_ok close paths xlim ylines pts h
  obtain ⟨t, hteq⟩ := List.length_eq_one.mp ht
  have htm : t ∈ trends paths := by rw [hteq]; exact List.mem_singleton_self t
  have htl : 1 < t.length := by
    have := (List.mem_filter.mp htm).2
    simpa using this
  obtain ⟨a, rest, har⟩ : ∃ a rest, t = a :: rest := by
    cases t with
    | nil => simp at htl
    | cons a rest => exact ⟨a, rest, rfl⟩
  have hhead : (trends paths).headI = t := by rw [hteq]; rfl
  rw [hp, hhead, har]
  simp [mid_points_length close rest a]
  omega

/-- A conforming chart whose trend has 2 segments and one internal gap:
three horizontal reference lines plus the trend segments
`(0,9)→(40,8)` and `(60,8)→(100,9)`. -/
def gapChart : List Path :=
  [ [⟨⟨0, 10⟩, ⟨100, 10⟩⟩],
    [⟨⟨0, 5⟩, ⟨100, 5⟩⟩],
    [⟨⟨0, 0⟩, ⟨100, 0⟩⟩],
    [⟨⟨0, 9⟩, ⟨40, 8⟩⟩, ⟨⟨60, 8⟩, ⟨100, 9⟩⟩] ]

/-- C1 (counterexample): on `gapChart` the trend has 2 segments and 1 gap;
`categorise_paths` returns 4 points, while the claimed formula
`segments + 1 + 2 * gaps` predicts 5. -/
theorem gap_adds_two_points_false :
    categorise_paths closeEq gapChart
        = .ok ((0, 100), [10, 5, 0], [⟨0, 9⟩, ⟨40, 8⟩, ⟨60, 8⟩, ⟨100, 9⟩])
      ∧ ((trends gapChart).headI).length = 2
      ∧ gapCount closeEq ((trends gapChart).headI) = 1
      ∧ ([(⟨0, 9⟩ : Cplx), ⟨40, 8⟩, ⟨60, 8⟩, ⟨100, 9⟩] : List Cplx).length
          ≠ ((trends gapChart).headI).length + 1
              + 2 * gapCount closeEq ((trends gapChart).headI) := by
  refine ⟨by with_unfolding_all rfl, by with_unfolding_all rfl,
    by with_unfolding_all rfl, by with_unfolding_all decide⟩

/-- C1 (witness): the amended length formula instantiated on `gapChart`
(4 points = 2 segments + 1 + 1 gap). -/
theorem trend_points_length_witness :
    ([(⟨0, 9⟩ : Cplx), ⟨40, 8⟩, ⟨60, 8⟩, ⟨100, 9⟩] : List Cplx).length
      = ((trends gapChart).headI).length + 1 + gapCount closeEq ((trends gapChart).headI) :=
  trend_points_length closeEq gapChart (0, 100) [10, 5, 0]
    [⟨0, 9⟩, ⟨40, 8⟩, ⟨60, 8⟩, ⟨100, 9⟩] (by with_unfolding_all rfl)

/-! ### Claim C5 -/

/-- C5: when the single-segment paths yield exactly 5 reference-line
candidates, the returned reference-line set is the descending-sorted
arrangement (a sorted permutation) of the 1st, 3rd and 5th elements
(indices 0, 2, 4) of the ascending-sorted candidate list. -/
theorem five_candidate_reduction (close : Cplx → Cplx → Bool) (paths : List Path)
    (xlim : ℚ × ℚ) (ylines : List ℚ) (pts : List Cplx)
    (h : categorise_paths close paths = .ok (xlim, ylines, pts))
    (h5 : (single_segment paths).length = 5) :
    List.Sorted (fun a b : ℚ => b ≤ a) ylines
      ∧ ylines.Perm [(y_lines paths).getD 0 0, (y_lines paths).getD 2 0,
          (y_lines paths).getD 4 0] := by
  obtain ⟨h35, ht, hx, hy, hp⟩ := categorise_paths_ok close paths xlim ylines pts h
  have h5' : (y_lines paths).length = 5 := by rw [y_lines_length, h5]
  rw [hy, if_pos h5']
  exact ⟨List.sorted_insertionSort _ _, List.perm_insertionSort _ _⟩

/-- A chart with five single-segment reference-line candidates (at
y = 1..5, unsorted in the file) and one 2-segment trend. -/
def fiveChart : List Path :=
  [ [⟨⟨0, 4⟩, ⟨100, 4⟩⟩],
    [⟨⟨0, 2⟩, ⟨100, 2⟩⟩],
    [⟨⟨0, 5⟩, ⟨100, 5⟩⟩],
    [⟨⟨0, 1⟩, ⟨100, 1⟩⟩],
    [⟨⟨0, 3⟩, ⟨100, 3⟩⟩],
    [⟨⟨0, 9⟩, ⟨50, 8⟩⟩, ⟨⟨50, 8⟩, ⟨100, 9⟩⟩] ]

/-- C5 (witness): on `fiveChart` the candidates sort to `[1,2,3,4,5]` and
the returned set `[5,3,1]` is the descending arrangement of indices
0, 2, 4. -/
theorem five_candidate_reduction_witness :
    List.Sorted (fun a b : ℚ => b ≤ a) [5, 3, 1]
      ∧ ([(5 : ℚ), 3, 1] : List ℚ).Perm [(y_lines fiveChart).getD 0 0,
          (y_lines fiveChart).getD 2 0, (y_lines fiveChart).getD 4 0] :=
  five_candidate_reduction closeEq fiveChart (0, 100) [5, 3, 1]
    [⟨0, 9⟩, ⟨50, 8⟩, ⟨100, 9⟩] (by with_unfolding_all rfl) (by with_unfolding_all rfl)

/-! ### Claim C6 -/

/-- C6: the returned x-axis bounds are the start/end x-coordinates of the
second element (index 1) of the single-segment path list, taken in
original path order. -/
theorem xlim_from_second_single (close : Cplx → Cplx → Bool) (paths : List Path)
    (xlim : ℚ × ℚ) (ylines : List ℚ) (pts : List Cplx)
    (h : categorise_paths close paths = .ok (xlim, ylines, pts)) :
    xlim = ((pathStart ((single_segment paths).getD 1 [])).re,
            (pathStop ((single_segment paths).getD 1 [])).re) := by
  obtain ⟨h35, ht, hx, hy, hp⟩ := categorise_paths_ok close paths xlim ylines pts h
  rw [hx]
  have hd : ((0 : ℚ), (0 : ℚ)) = ((pathStart ([] : Path)).re, (pathStop ([] : Path)).re) := rfl
  rw [hd]
  exact List.getD_map _ _ _

/-- C6 (witness): on `gapChart` the bounds (0, 100) come from the second
single-segment path. -/
theorem xlim_from_second_single_witness :
    ((0 : ℚ), (100 : ℚ)) = ((pathStart ((single_segment gapChart).getD 1 [])).re,
        (pathStop ((single_segment gapChart).getD 1 [])).re) :=
  xlim_from_second_single closeEq gapChart (0, 100) [10, 5, 0]
    [⟨0, 9⟩, ⟨40, 8⟩, ⟨60, 8⟩, ⟨100, 9⟩] (by with_unfolding_all rfl)

/-! ### Claim C7 -/

/-- C7 (amended): a path contributes a reference-line candidate exactly
when it has a single segment — no horizontality check is performed, the
candidate being the start point's y-coordinate — and it is a trend-line
candidate exactly when it has more than one segment. -/
theorem candidate_classification (paths : List Path) (p : Path) (q : ℚ) :
    (p ∈ trends paths ↔ p ∈ paths ∧ 1 < p.length)
      ∧ (q ∈ y_lines paths ↔ ∃ p' ∈ paths, p'.length = 1 ∧ (pathStart p').im = q) := by
  constructor
  · simp [trends, List.mem_filter]
  · simp only [y_lines, pySorted]
    rw [(List.perm_insertionSort _ _).mem_iff]
    simp only [List.mem_map, List.mem_filter, single_segment, beq_iff_eq]
    constructor
    · rintro ⟨p', ⟨hp1, hp2⟩, hp3⟩
      exact ⟨p', hp1, hp2, hp3⟩
    · rintro ⟨p', hp1, hp2, hp3⟩
      exact ⟨p', ⟨hp1, hp2⟩, hp3⟩

/-- A single-segment path that is not horizontal: start y = 0, end y = 7. -/
def slantedPath : Path := [⟨⟨0, 0⟩, ⟨100, 7⟩⟩]

/-- A conforming chart in which one reference-line candidate comes from
the non-horizontal `slantedPath`. -/
def slantedChart : List Path :=
  [ [⟨⟨0, 10⟩, ⟨100, 10⟩⟩],
    [⟨⟨0, 5⟩, ⟨100, 5⟩⟩],
    slantedPath,
    [⟨⟨0, 9⟩, ⟨50, 8⟩⟩, ⟨⟨50, 8⟩, ⟨100, 9⟩⟩] ]

/-- C7 (counterexample): `slantedPath` has one segment whose start and end
y-coordinates differ (0 vs 7), yet its start y-coordinate 0 is collected
as a reference-line candidate and appears in the reference-line set that
`categorise_paths` returns. -/
theorem nonhorizontal_candidate_false :
    slantedPath.length = 1
      ∧ (pathStart slantedPath).im ≠ (pathStop slantedPath).im
      ∧ (pathStart slantedPath).im ∈ y_lines slantedChart
      ∧ categorise_paths closeEq slantedChart
          = .ok ((0, 100), [10, 5, 0], [⟨0, 9⟩, ⟨50, 8⟩, ⟨100, 9⟩])
      ∧ (pathStart slantedPath).im ∈ [(10 : ℚ), 5, 0] := by
  refine ⟨by with_unfolding_all rfl, by with_unfolding_all decide,
    by with_unfolding_all decide, by with_unfolding_all rfl,
    by with_unfolding_all decide⟩

/-! ### Loop lemmas for `convert_units` -/

lemma conv_loop_map (f : Cplx → Except PyErr (ℤ × ℚ)) (g : Cplx → ℤ × ℚ)
    (hf : ∀ p, f p = .ok (g p)) :
    ∀ l : List Cplx, conv_loop f l = .ok (l.map g) := by
  intro l
  induction l with
  | nil => rfl
  | cons p rest ih => simp [conv_loop, hf p, ih]

lemma conv_loop_ok (f : Cplx → Except PyErr (ℤ × ℚ)) :
    ∀ (l : List Cplx) (out : List (ℤ × ℚ)), conv_loop f l = .ok out →
      out.length = l.length
        ∧ ∀ (i : ℕ) (hi : i < l.length) (hio : i < out.length),
            f (l.get ⟨i, hi⟩) = .ok (out.get ⟨i, hio⟩) := by
  intro l
  induction l with
  | nil =>
    intro out h
    simp only [conv_loop, Except.ok.injEq] at h
    subst h
    exact ⟨rfl, by intro i hi hio; simp at hi⟩
  | cons p rest ih =>
    intro out h
    simp only [conv_loop] at h
    cases hfp : f p with
    | error e => rw [hfp] at h; simp at h
    | ok q =>
      rw [hfp] at h
      cases hcl : conv_loop f rest with
      | error e => rw [hcl] at h; simp at h
      | ok qs =>
        rw [hcl] at h
        simp only [Except.ok.injEq] at h
        subst h
        obtain ⟨hl, hg⟩ := ih qs hcl
        refine ⟨by simp [hl], ?_⟩
        intro i hi hio
        cases i with
        | zero => simpa using hfp
        | succ i => simpa using hg i (by simpa using hi) (by simpa using hio)

lemma conv_loop_isOk (f : Cplx → Except PyErr (ℤ × ℚ))
    (hf : ∀ p, (f p).isOk = true) :
    ∀ l : List Cplx, (conv_loop f l).isOk = true := by
  intro l
  induction l with
  | nil => rfl
  | cons p rest ih =>
    obtain ⟨q, hq⟩ := (isOk_iff _).mp (hf p)
    obtain ⟨qs, hqs⟩ := (isOk_iff _).mp ih
    simp [conv_loop, hq, hqs, Except.isOk, Except.toBool]

/-- Shared evaluation lemma: with a 3-element reference list and nonzero
scales, `convert_units` reduces to a plain `List.map` of the per-point
affine formulas. -/
lemma convert_units_eq_map (trend : List Cplx)
    (ymax ymid ymin xmin xmax yspan xspan : ℚ)
    (hx : xmax - xmin ≠ 0) (hy : (|ymax - ymid| + |ymid - ymin|) / 2 ≠ 0) :
    convert_units trend [ymax, ymid, ymin] (xmin, xmax) yspan xspan
      = .ok (trend.map (fun p =>
          (1 + pyRound (xspan * ((p.re - xmin) / (xmax - xmin))),
           yspan * ((ymid - p.im) / ((|ymax - ymid| + |ymid - ymin|) / 2))))) := by
  unfold convert_units
  simp only []
  exact conv_loop_map _ _ (fun p => by simp [point_conv, hx, hy]) trend

lemma pyRound_nonneg {q : ℚ} (hq : 0 ≤ q) : 0 ≤ pyRound q := by
  have hf : (0 : ℤ) ≤ ⌊q⌋ := by
    rw [Int.le_floor]; exact_mod_cast hq
  unfold pyRound
  split
  · exact hf
  · split
    · omega
    · split <;> omega

/-! ### Claim C2 -/

/-- C2: on a 3-element reference triple and nonzero scales, the mapper
sends each point `(x, y)` to
`(1 + round(x_span * (x - x_min) / (x_max - x_min)),
  y_span * (y_mid - y) / y_scale)` with
`y_scale = (|y_top - y_mid| + |y_mid - y_bottom|) / 2`. -/
theorem convert_units_formula (trend : List Cplx)
    (ymax ymid ymin xmin xmax yspan xspan : ℚ)
    (hx : xmax - xmin ≠ 0) (hy : (|ymax - ymid| + |ymid - ymin|) / 2 ≠ 0) :
    convert_units trend [ymax, ymid, ymin] (xmin, xmax) yspan xspan
      = .ok (trend.map (fun p =>
          (1 + pyRound (xspan * ((p.re - xmin) / (xmax - xmin))),
           yspan * ((ymid - p.im) / ((|ymax - ymid| + |ymid - ymin|) / 2))))) :=
  convert_units_eq_map trend ymax ymid ymin xmin xmax yspan xspan hx hy

/-- C2 (witness): the claim's concrete round-trip instance — reference
lines at y ∈ {-1, 0, 1}, bounds (0, 10), x_span 42, y_span 80: the point
(5, 1/2) maps to day index 22 and value -40. -/
theorem convert_units_formula_witness :
    convert_units [⟨5, 1/2⟩] [1, 0, -1] (0, 10) 80 42 = .ok [(22, -40)] := by
  rw [convert_units_formula [⟨5, 1/2⟩] 1 0 (-1) 0 10 80 42 (by norm_num) (by norm_num)]
  with_unfolding_all rfl

/-! ### Claim C4 -/

/-- C4 (counterexample): with the symmetric descending reference triple
(1, 0, -1), bounds (0, 10) and y_span 80, the point whose y-coordinate is
`y_top = 1` (the first element of the triple) maps to value -80, not
+y_span = 80. -/
theorem value_at_top_positive_false :
    convert_units [⟨0, 1⟩] [1, 0, -1] (0, 10) 80 42 = .ok [(1, -80)]
      ∧ |(1 : ℚ) - 0| = |(0 : ℚ) - -1|
      ∧ ((-80 : ℚ) ≠ 80) := by
  exact ⟨by with_unfolding_all rfl, by norm_num, by norm_num⟩

/-- C4 (amended): for symmetric bounds, a point at `y_mid` maps to value 0
and a point at `y_top` (the first element of the descending triple) maps
to value `-y_span` (exactly; `+y_span` is attained at `y_bottom`). -/
theorem convert_units_baseline_top (x1 x2 xmin xmax ymax ymid ymin yspan xspan : ℚ)
    (hdesc : ymid ≤ ymax) (hne : ymid ≠ ymax)
    (hsym : |ymax - ymid| = |ymid - ymin|) (hx : xmax - xmin ≠ 0) :
    convert_units [⟨x1, ymid⟩, ⟨x2, ymax⟩] [ymax, ymid, ymin] (xmin, xmax) yspan xspan
      = .ok [(1 + pyRound (xspan * ((x1 - xmin) / (xmax - xmin))), 0),
             (1 + pyRound (xspan * ((x2 - xmin) / (xmax - xmin))), -yspan)] := by
  have hd : (0 : ℚ) < ymax - ymid := by
    rcases lt_or_eq_of_le hdesc with h | h
    · linarith
    · exact absurd h hne
  have hsc : (|ymax - ymid| + |ymid - ymin|) / 2 = ymax - ymid := by
    rw [← hsym, abs_of_pos hd]; ring
  have hyne : (|ymax - ymid| + |ymid - ymin|) / 2 ≠ 0 := by
    rw [hsc]; exact ne_of_gt hd
  rw [convert_units_eq_map _ ymax ymid ymin xmin xmax yspan xspan hx hyne]
  have h1 : yspan * ((ymid - ymid) / ((|ymax - ymid| + |ymid - ymin|) / 2)) = 0 := by
    simp
  have h2 : yspan * ((ymid - ymax) / ((|ymax - ymid| + |ymid - ymin|) / 2)) = -yspan := by
    rw [hsc, show ymid - ymax = -(ymax - ymid) by ring, neg_div,
      div_self (ne_of_gt hd)]
    ring
  simp [h1, h2]

/-- C4 (witness): the amended statement at the concrete symmetric triple
(1, 0, -1) with bounds (0, 10), y_span 80, x_span 42. -/
theorem convert_units_baseline_top_witness :
    convert_units [⟨0, 0⟩, ⟨0, 1⟩] [1, 0, -1] (0, 10) 80 42
      = .ok [(1 + pyRound (42 * ((0 - 0) / (10 - 0))), 0),
             (1 + pyRound (42 * ((0 - 0) / (10 - 0))), -80)] :=
  convert_units_baseline_top 0 0 0 10 1 0 (-1) 80 42 (by norm_num) (by norm_num)
    (by norm_num) (by norm_num)

/-! ### Claim C8 -/

/-- C8 (counterexample): a trend point left of `x_min` produces a day
index below 1: with bounds (0, 10) and x_span 42, the point (-10, 0)
maps to day index -41. -/
theorem day_index_below_one :
    convert_units [⟨-10, 0⟩] [1, 0, -1] (0, 10) 80 42 = .ok [(-41, 0)]
      ∧ ¬(1 ≤ (-41 : ℤ)) := by
  exact ⟨by with_unfolding_all rfl, by decide⟩

/-- C8 (amended): every mapped day index is an integer ≥ 1 provided every
input point lies at or right of `x_min`, the bounds are proper
(`x_min < x_max`) and `x_span` is nonnegative. -/
theorem day_index_ge_one (trend : List Cplx) (ymax ymid ymin xmin xmax yspan xspan : ℚ)
    (out : List (ℤ × ℚ))
    (hx : xmin < xmax) (hs : 0 ≤ xspan) (hp : ∀ p ∈ trend, xmin ≤ p.re)
    (h : convert_units trend [ymax, ymid, ymin] (xmin, xmax) yspan xspan = .ok out) :
    ∀ q ∈ out, 1 ≤ q.1 := by
  unfold convert_units at h
  simp only [] at h
  obtain ⟨hl, hg⟩ := conv_loop_ok _ trend out h
  intro q hq
  obtain ⟨⟨i, hio⟩, hiq⟩ := List.mem_iff_get.mp hq
  have hi : i < trend.length := by omega
  have hpt := hg i hi hio
  unfold point_conv at hpt
  have hxs : xmax - xmin ≠ 0 := by intro h0; linarith
  rw [if_neg hxs] at hpt
  by_cases hys : (|ymax - ymid| + |ymid - ymin|) / 2 = 0
  · rw [if_pos hys] at hpt; simp at hpt
  · rw [if_neg hys] at hpt
    simp only [Except.ok.injEq] at hpt
    rw [← hiq, ← hpt]
    have harg : 0 ≤ xspan * (((trend.get ⟨i, hi⟩).re - xmin) / (xmax - xmin)) := by
      apply mul_nonneg hs
      apply div_nonneg
      · have := hp _ (List.get_mem trend i hi)
        linarith
      · linarith
    have hr := pyRound_nonneg harg
    simp only []
    omega

/-- C8 (witness): the amended bound at the concrete chart instance (all
points at x ≥ 0 = x_min, day index 22 ≥ 1). -/
theorem day_index_ge_one_witness :
    (1 : ℤ) ≤ (((22 : ℤ), (-40 : ℚ)) : ℤ × ℚ).1 :=
  day_index_ge_one [⟨5, 1/2⟩] 1 0 (-1) 0 10 80 42 [(22, -40)]
    (by norm_num) (by norm_num)
    (by intro p hp; rw [List.mem_singleton] at hp; subst hp; norm_num)
    (by with_unfolding_all rfl)
    ((22 : ℤ), (-40 : ℚ)) (by simp)

/-! ### Claim C9 -/

/-- C9: the mapper is a pointwise map — the output has the same length as
the input and the i-th output is exactly the conversion of the i-th input
point; no sorting, filtering or deduplication happens. -/
theorem convert_units_pointwise (trend : List Cplx) (ymax ymid ymin : ℚ)
    (xlim : ℚ × ℚ) (yspan xspan : ℚ) (out : List (ℤ × ℚ))
    (h : convert_units trend [ymax, ymid, ymin] xlim yspan xspan = .ok out) :
    out.length = trend.length
      ∧ ∀ (i : ℕ) (hi : i < trend.length) (hio : i < out.length),
          point_conv xlim.1 (xlim.2 - xlim.1) ymid
              ((|ymax - ymid| + |ymid - ymin|) / 2) yspan xspan (trend.get ⟨i, hi⟩)
            = .ok (out.get ⟨i, hio⟩) := by
  unfold convert_units at h
  simp only [] at h
  exact conv_loop_ok _ trend out h

/-- C9 (witness): the pointwise correspondence at a concrete one-point
trend, instantiated at index 0. -/
theorem convert_units_pointwise_witness :
    ([((22 : ℤ), (-40 : ℚ))] : List (ℤ × ℚ)).length
        = ([(⟨5, 1/2⟩ : Cplx)] : List Cplx).length
      ∧ point_conv ((0 : ℚ), (10 : ℚ)).1 (((0 : ℚ), (10 : ℚ)).2 - ((0 : ℚ), (10 : ℚ)).1)
            0 ((|(1 : ℚ) - 0| + |(0 : ℚ) - -1|) / 2) 80 42
            (([(⟨5, 1/2⟩ : Cplx)] : List Cplx).get ⟨0, by decide⟩)
          = .ok (([((22 : ℤ), (-40 : ℚ))] : List (ℤ × ℚ)).get ⟨0, by decide⟩) := by
  have h := convert_units_pointwise [⟨5, 1/2⟩] 1 0 (-1) (0, 10) 80 42 [(22, -40)]
    (by with_unfolding_all rfl)
  exact ⟨h.1, h.2 0 (by decide) (by decide)⟩

/-! ### Claim C10 -/

/-- C10: the mapper divides by `x_scale` and `y_scale` without a guard —
it succeeds on every trend list exactly when `x_min ≠ x_max` and the three
reference-line values are not all equal (so `y_scale ≠ 0`). -/
theorem convert_units_total_iff (ymax ymid ymin xmin xmax yspan xspan : ℚ) :
    (∀ trend : List Cplx,
        (convert_units trend [ymax, ymid, ymin] (xmin, xmax) yspan xspan).isOk = true)
      ↔ (xmin ≠ xmax ∧ ¬(ymax = ymid ∧ ymid = ymin)) := by
  constructor
  · intro h
    have h1 := h [⟨0, 0⟩]
    unfold convert_units at h1
    simp only [] at h1
    constructor
    · intro hxe
      have hxs : xmax - xmin = 0 := by rw [hxe]; ring
      simp [conv_loop, point_conv, hxs, Except.isOk, Except.toBool] at h1
    · rintro ⟨he1, he2⟩
      have hys : (|ymax - ymid| + |ymid - ymin|) / 2 = 0 := by
        rw [he1, he2]; simp
      by_cases hxs : xmax - xmin = 0
      · simp [conv_loop, point_conv, hxs, Except.isOk, Except.toBool] at h1
      · simp [conv_loop, point_conv, hxs, hys, Except.isOk, Except.toBool] at h1
  · rintro ⟨hx, hy⟩ trend
    unfold convert_units
    simp only []
    apply conv_loop_isOk
    intro p
    have hxs : xmax - xmin ≠ 0 := sub_ne_zero.mpr (Ne.symm hx)
    have hys : (|ymax - ymid| + |ymid - ymin|) / 2 ≠ 0 := by
      intro h0
      have h2 : |ymax - ymid| + |ymid - ymin| = 0 := by
        field_simp at h0
        exact h0
      have ha : |ymax - ymid| = 0 ∧ |ymid - ymin| = 0 := by
        constructor <;>
          nlinarith [abs_nonneg (ymax - ymid), abs_nonneg (ymid - ymin)]
      refine hy ⟨?_, ?_⟩
      · have := abs_eq_zero.mp ha.1; linarith
      · have := abs_eq_zero.mp ha.2; linarith
    simp [point_conv, hxs, hys, Except.isOk, Except.toBool]

end CreateCsvs
